import Mathlib

/-!
# Verification of `torch/ao/sparsity/experimental/pruner/base_pruner.py`

A shallow embedding of the `BasePruner` class and the helper functions it
relies on, together with theorems settling the frozen claims about its
specification.

Modelling conventions:

* Python strings are embedded as `List Char` (named `Str` below) so that the
  string surgery done by the source (leading-dot trimming, splitting a
  tensor path at its last dot) can be reasoned about with list lemmas.
* Module objects live in a heap `mods : Nat → Module` addressed by identity
  (`Nat` ids); Python attribute mutation becomes functional update of the
  heap.  Reference equality of Python objects is equality of ids.
* The mutable `pruned_outputs` sets owned by parametrization objects live in
  a second heap `sets : Nat → List Nat`; a parametrization holds a
  *reference* (`prunedRef : Nat`) into that heap, so the aliasing assignment
  `modules[1].parametrizations.weight[0].pruned_outputs =
  modules[0].parametrizations.weight[0].pruned_outputs` is modelled as
  copying the reference, exactly as in Python.
* Each module has a single prunable tensor (`weight`, a `List Int` whose
  length is the tensor's dimension-0 size); this matches the source, which
  only ever prunes the `weight` attribute (`tensor_name` is `'weight'`
  everywhere a config is built by the module itself).
* A Python `raise` aborts the call but leaves already-performed mutations in
  place, so the embedded operations return the (possibly partially mutated)
  state together with an optional error.
-/

set_option maxHeartbeats 1000000

namespace Pruner

abbrev Str := List Char

/-- Module kinds relevant to the pruner.  The source dispatches on
`isinstance(module, ...)` against closed sets of classes; kinds are embedded
as a closed enumeration (`other` stands for any class outside the three named
ones), so `isinstance` becomes membership of the kind in a set. -/
inductive MKind where
  | linear
  | conv2d
  | batchNorm2d
  | other
  deriving DecidableEq, Repr

/-- The set `SUPPORTED_MODULES = {nn.Linear, nn.Conv2d, nn.BatchNorm2d}`. -/
def SUPPORTED_MODULES : List MKind := [.linear, .conv2d, .batchNorm2d]

/-- The set `NEEDS_ZEROS = {nn.BatchNorm2d}`. -/
def NEEDS_ZEROS : List MKind := [.batchNorm2d]

/-- The test `isinstance(module, tuple(SUPPORTED_MODULES))`. -/
def isSupported (k : MKind) : Bool := k ∈ SUPPORTED_MODULES

/-- The test `isinstance(module, tuple(NEEDS_ZEROS))`. -/
def needsZeros (k : MKind) : Bool := k ∈ NEEDS_ZEROS

/-- The parametrization class chosen for a group: `PruningParametrization`,
`ZeroesParametrization`, or a custom class supplied through the group's
`'parametrization'` key (identified by a code). -/
inductive PVariant where
  | pruning
  | zeroes
  | custom (code : Nat)
  deriving DecidableEq, Repr

/-- A parametrization object attached to a module's `weight`: its class and
the reference to its mutable `pruned_outputs` set in the set heap.
Modelled from the spec: `PruningParametrization` / `ZeroesParametrization`
live in `parametrization.py` (not part of the sources); per the spec the
pruned-output set is co-located with the transformation layer and starts
empty. -/
structure Parametrization where
  variant : PVariant
  prunedRef : Nat
  deriving DecidableEq, Repr

/-- A module object: its class kind, its `weight` tensor (rows abstracted to
single entries), the optional `mask` buffer (the source registers
`torch.tensor(shape[0])`, a scalar placeholder, so the buffer is one `Nat`),
the optional parametrization on `weight`, the optional `bias`, and the
optional detached `_bias` side parameter. -/
structure Module where
  kind : MKind
  weight : List Int
  mask : Option Nat := none
  param : Option Parametrization := none
  bias : Option Int := none
  biasParam : Option Int := none
  deriving DecidableEq, Repr

/-- The pruner-visible mutable state: the module heap, the pruned-output set
heap with its allocation counter, and the two hook-handle lists
(`activation_handles`, `bias_handles`), each recording the id of the module
the hook was registered on. -/
structure Heap where
  mods : Nat → Module
  sets : Nat → List Nat
  nextRef : Nat
  activationHandles : List Nat
  biasHandles : List Nat

/-- Functional update of the module heap at one id. -/
def Heap.setMod (h : Heap) (mid : Nat) (m : Module) : Heap :=
  { h with mods := fun i => if i = mid then m else h.mods i }

/-- Errors the embedded operations can raise. -/
inductive PrunerErr where
  | notImplementedError
  | notParametrized
  | noMaskAttribute
  deriving DecidableEq, Repr

/-- One group record as consumed by `_prepare` / `step` / `squash_mask`
(after `_get_modules_and_tensor_names` has resolved it): the module ids (one,
or two for a paired `(Conv2d, BatchNorm2d)` group), the parallel tensor
names, and the optional `'parametrization'` override key. -/
structure Group where
  moduleIds : List Nat
  tensorNames : List Str
  override : Option PVariant := none

/-- Bias handling of `_prepare` (lines 108–111): if the module has a bias,
detach it into the `_bias` side parameter and clear `bias`; then append a
`BiasHook` handle unconditionally. -/
def biasStep (h : Heap) (mid : Nat) : Heap :=
  let m := h.mods mid
  let m1 := match m.bias with
    | some b => { m with biasParam := some b, bias := none }
    | none => m
  let h1 := h.setMod mid m1
  { h1 with biasHandles := h1.biasHandles ++ [mid] }

/-- The body of `_prepare`'s inner loop for one `(module, tensor_name)` pair
(lines 86–111).  Registers the scalar mask buffer if absent, attaches the
parametrization selected by `config.get('parametrization', default)`
(allocating a fresh empty pruned-output set), registers the
`ActivationReconstruction` forward hook for supported non-zeroing modules,
raises `NotImplementedError` for unsupported ones (after the parametrization
was already attached, as in the source), and finally does the bias step. -/
def processOne (override : Option PVariant) (h : Heap) (mid : Nat) :
    Heap × Option PrunerErr :=
  let m := h.mods mid
  if needsZeros m.kind then
    let m1 := if m.mask = none then { m with mask := some m.weight.length } else m
    let v := override.getD .zeroes
    let m2 := { m1 with param := some ⟨v, h.nextRef⟩ }
    let h1 := { h.setMod mid m2 with
                sets := fun r => if r = h.nextRef then [] else h.sets r,
                nextRef := h.nextRef + 1 }
    (biasStep h1 mid, none)
  else
    let m1 := if m.mask = none then { m with mask := some m.weight.length } else m
    let v := override.getD .pruning
    let m2 := { m1 with param := some ⟨v, h.nextRef⟩ }
    let h1 := { h.setMod mid m2 with
                sets := fun r => if r = h.nextRef then [] else h.sets r,
                nextRef := h.nextRef + 1 }
    if isSupported m.kind then
      let h2 := { h1 with activationHandles := h1.activationHandles ++ [mid] }
      (biasStep h2 mid, none)
    else
      (h1, some .notImplementedError)

/-- The inner `for module, tensor_name in zip(...)` loop of `_prepare`,
stopping at the first raised error. -/
def processModules (override : Option PVariant) (h : Heap) :
    List Nat → Heap × Option PrunerErr
  | [] => (h, none)
  | mid :: rest =>
    match processOne override h mid with
    | (h1, some e) => (h1, some e)
    | (h1, none) => processModules override h1 rest

/-- Line 115: `modules[1].parametrizations.weight[0].pruned_outputs =
modules[0].parametrizations.weight[0].pruned_outputs` — the second module's
parametrization is made to hold the very same set reference as the first's. -/
def aliasPair (h : Heap) (mid0 mid1 : Nat) : Heap :=
  match (h.mods mid0).param, (h.mods mid1).param with
  | some p0, some p1 =>
    h.setMod mid1 { h.mods mid1 with param := some { p1 with prunedRef := p0.prunedRef } }
  | _, _ => h

/-- One iteration of `_prepare`'s outer loop: process the group's modules,
then (for a two-module group) alias the pruned-output sets (lines 113–115). -/
def processGroup (h : Heap) (g : Group) : Heap × Option PrunerErr :=
  match processModules g.override h g.moduleIds with
  | (h1, some e) => (h1, some e)
  | (h1, none) =>
    if g.moduleIds.length = 2 then
      (aliasPair h1 (g.moduleIds.getD 0 0) (g.moduleIds.getD 1 0), none)
    else
      (h1, none)

/-- Embedding of `_prepare`: the outer `for config in self.groups` loop.  A raised error
propagates immediately (nothing in the source catches it). -/
def basePrepare (h : Heap) : List Group → Heap × Option PrunerErr
  | [] => (h, none)
  | g :: gs =>
    match processGroup h g with
    | (h1, some e) => (h1, some e)
    | (h1, none) => basePrepare h1 gs

/-- The pruned-output set reference held by a module's parametrization. -/
def prunedRefOf (h : Heap) (mid : Nat) : Option Nat :=
  (h.mods mid).param.map (fun p => p.prunedRef)

/-- The pruned-output set visible through a module, i.e.
`module.parametrizations.weight[0].pruned_outputs` dereferenced in the set
heap (`get_module_pruned_outputs`, lines 220–223). -/
def viewPrunedOutputs (h : Heap) (mid : Nat) : Option (List Nat) :=
  (h.mods mid).param.map (fun p => h.sets p.prunedRef)

/-- Replace the whole set heap.  An abstract `update_mask` implementation,
per the spec's contract (§4.4 and §3), mutates the pruned-output sets in
place and nothing else; an arbitrary step call therefore takes the state to
`stepSets h ns` for some new set heap `ns`. -/
def stepSets (h : Heap) (ns : Nat → List Nat) : Heap :=
  { h with sets := ns }

/-- The value of the `weight` attribute as read through a parametrization.
Modelled from the spec: `PruningParametrization` (in `parametrization.py`,
not part of the sources) produces the dimension-reduced tensor with the
pruned rows removed, `ZeroesParametrization` the zero-filled tensor of the
same shape; a custom parametrization is left abstract (identity here — no
claim depends on its output). -/
def applyVariant (v : PVariant) (pruned : List Nat) (w : List Int) : List Int :=
  match v with
  | .pruning => ((List.range w.length).filter (fun i => i ∉ pruned)).filterMap
      (fun i => w.get? i)
  | .zeroes => (List.range w.length).map
      (fun i => if i ∈ pruned then 0 else (w.getD i 0))
  | .custom _ => w

/-- The body of `squash_mask`'s inner loop for one module (lines 211–218):
`remove_parametrizations(..., leave_parametrized=True)` — which raises a
precondition error when the module is not parametrized, and otherwise bakes
the currently-masked value into `weight` — followed by the removal of the
`mask` attribute (which would itself fail were the mask attribute absent).
`remove_parametrizations` is framework code (not part of the sources);
its success/failure contract is modelled from the spec (§4.5, §6). -/
def squashModule (h : Heap) (mid : Nat) : Heap × Option PrunerErr :=
  let m := h.mods mid
  match m.param with
  | none => (h, some .notParametrized)
  | some p =>
    let m1 := { m with param := none,
                       weight := applyVariant p.variant (h.sets p.prunedRef) m.weight }
    match m1.mask with
    | none => (h.setMod mid m1, some .noMaskAttribute)
    | some _ => (h.setMod mid { m1 with mask := none }, none)

/-- Embedding of `squash_mask`: the loop over one group's modules, stopping at the first
raised error. -/
def squashGroup (h : Heap) : List Nat → Heap × Option PrunerErr
  | [] => (h, none)
  | mid :: rest =>
    match squashModule h mid with
    | (h1, some e) => (h1, some e)
    | (h1, none) => squashGroup h1 rest

/-- The keyword arguments `step` passes to one `update_mask` call.  Since
`step` executes `self.update_mask(**config)`, the `module` argument is the
config's raw `module` field (the whole `(Conv2d, BatchNorm2d)` tuple for a
paired group) and `tensor_name` is the raw `tensor_name` field (the whole
two-element list for a paired group). -/
structure UpdateMaskCall where
  module : List Nat
  tensor_name : List Str
  deriving DecidableEq, Repr

/-- Embedding of `step` (lines 225–238), modelled as the list of `update_mask` calls it
dispatches: nothing when `enable_mask_update` is false; otherwise one call
per group, in stored order, carrying the raw config's `module` and
`tensor_name` fields (the locally built `untupled_args` dict — which holds
only `modules[0]` and `tensor_names[0]` — is dead: the source passes
`**config`). -/
def step (enableMaskUpdate : Bool) (groups : List Group) : List UpdateMaskCall :=
  if enableMaskUpdate then
    groups.map (fun g => { module := g.moduleIds, tensor_name := g.tensorNames })
  else
    []

/-! ## The module tree, path resolution and config normalization

These embed the parts of `prepare` (lines 131–205) and
`make_config_from_model` (lines 117–129) that walk the model's module tree
and build fully-qualified path strings.  Module identity is a `Nat` id on
each tree node; the class of a module is given by an environment
`env : Nat → MKind` so that config entries may also reference modules by id.
-/

/-- A node of the model's module tree: the module's identity and its named
children in enumeration order. -/
inductive MTree where
  | node (id : Nat) (children : List (Str × MTree))

/-- The identity of a tree node. -/
def MTree.id : MTree → Nat
  | .node i _ => i

/-- The named children of a tree node. -/
def MTree.children : MTree → List (Str × MTree)
  | .node _ cs => cs

/-- The leading-dot trimming `if s and s[0] == '.': s = s[1:]`. -/
def trimLeadingDot : Str → Str
  | '.' :: rest => rest
  | s => s

/-- The search loop of `module_to_fqn` over a child list: for each child in
order, return `prefix + '.' + name` if the child is the target, otherwise
search the child's own subtree with the extended prefix, otherwise move on
to the next sibling. -/
def moduleToFqnL (target : Nat) : List (Str × MTree) → Str → Option Str
  | [], _ => none
  | (name, .node i cs) :: rest, pre =>
    let newName := pre ++ '.' :: name
    if i = target then some newName
    else
      match moduleToFqnL target cs newName with
      | some p => some p
      | none => moduleToFqnL target rest pre

/-- Modelled from the spec: `module_to_fqn(model, module, prefix)` (in
`torch/ao/sparsity`, not part of the sources) searches the children of
`model` depth-first for the node with identity `target`, building the dotted
path `prefix + '.' + name` along the way, and returns the path (`none` when
the module is not a proper descendant).  A resolved path therefore always
starts with `'.'`, the artifact the callers trim. -/
def moduleToFqnT (target : Nat) (t : MTree) (pre : Str) : Option Str :=
  match t with
  | .node _ cs => moduleToFqnL target cs pre

/-- Split a string at its last `'.'`: `lastDotSplit s = some (b, a)` when
`s = b ++ '.' :: a` with no dot in `a`; `none` when `s` has no dot.  This is
how `get_arg_info_from_tensor_fqn` separates `module_fqn` (the part before
the last dot) from `tensor_name` (`s.split('.')[-1]`). -/
def lastDotSplit : Str → Option (Str × Str)
  | [] => none
  | c :: rest =>
    match lastDotSplit rest with
    | some (b, a) => some (c :: b, a)
    | none => if c = '.' then some ([], rest) else none

/-- Split a path on every `'.'` (Python `s.split('.')`). -/
def splitDots : Str → List Str
  | [] => [[]]
  | c :: rest =>
    if c = '.' then [] :: splitDots rest
    else
      match splitDots rest with
      | s :: ss => (c :: s) :: ss
      | [] => [[c]]

/-- Look up a child by name. -/
def childNamed (name : Str) : List (Str × MTree) → Option MTree
  | [] => none
  | (n, c) :: rest => if n = name then some c else childNamed name rest

/-- Descend through the tree along a list of names. -/
def resolveSegments : List Str → MTree → Option Nat
  | [], t => some t.id
  | n :: rest, t =>
    match childNamed n t.children with
    | some c => resolveSegments rest c
    | none => none

/-- Modelled from the spec: `fqn_to_module(root, path)` (not part of the
sources) resolves a dotted path to the module it names — the root itself for
the empty path — and `none` when no such module exists. -/
def fqnToModule (t : MTree) (path : Str) : Option Nat :=
  if path = [] then some t.id else resolveSegments (splitDots path) t

/-- The record returned by `get_arg_info_from_tensor_fqn`. -/
structure ArgInfo where
  module_fqn : Str
  module : Option Nat
  tensor_name : Str
  tensor_fqn : Str
  deriving DecidableEq, Repr

/-- Modelled from the spec: `get_arg_info_from_tensor_fqn(model, tensor_fqn)`
(in `torch/ao/sparsity/sparsifier/utils.py`, not part of the sources) chops
a leading `'.'` from the supplied path (per the source comment on line 189:
"info_from_tensor_fqn will chop leading '.' from tensor_fqn"), splits the
result at its last dot into `module_fqn` and `tensor_name` (with
`module_fqn = ''` when there is no dot), resolves `module`, and returns the
four fields. -/
def getArgInfoFromTensorFqn (root : MTree) (fqn : Str) : ArgInfo :=
  let f := trimLeadingDot fqn
  match lastDotSplit f with
  | some (b, a) =>
    { module_fqn := b, module := fqnToModule root b, tensor_name := a, tensor_fqn := f }
  | none =>
    { module_fqn := [], module := fqnToModule root [], tensor_name := f, tensor_fqn := f }

/-- The string `'weight'`. -/
def weightS : Str := ['w', 'e', 'i', 'g', 'h', 't']

/-- A dict-shaped config entry: the optional keys `prepare` inspects. -/
structure DictConfig where
  tensor_fqn : Option Str := none
  module : Option Nat := none
  module_fqn : Option Str := none
  tensor_name : Option Str := none
  deriving DecidableEq, Repr

/-- One element of the user-supplied config list: a `(Conv2d, BatchNorm2d)`
tuple, a dict, or a bare module reference (which `prepare` wraps into
`{'module': module_config}` and treats as a dict). -/
inductive ConfigEntry where
  | pair (m0 m1 : Nat)
  | dict (d : DictConfig)
  | moduleRef (m : Nat)
  deriving DecidableEq, Repr

/-- The canonical group record `prepare` appends to `self.groups`: parallel
lists of module references, `module_fqn`s, `tensor_name`s and `tensor_fqn`s
(singleton lists for a non-paired group). -/
structure StoredGroup where
  modules : List (Option Nat)
  module_fqns : List Str
  tensor_names : List Str
  tensor_fqns : List Str
  deriving DecidableEq, Repr

/-- Errors `prepare`'s normalization loop can raise: the paired-entry
`assert isinstance(first_layer, nn.Conv2d) and isinstance(next_layer,
nn.BatchNorm2d)` (line 155), the field-agreement `assert` (line 190), the
`TypeError` from concatenating `None + ".weight"` when a module entry cannot
be resolved to a path (line 202), and the `KeyError` when a dict entry has
neither `tensor_fqn` nor `module` (line 196). -/
inductive PrepareErr where
  | assertPairKinds
  | assertFieldAgreement
  | typeErrorNonePath
  | keyErrorModule
  deriving DecidableEq, Repr

/-- Whether an explicitly supplied optional field disagrees with the value
recovered from the path (the body of the `assert` on line 190). -/
def conflictsWith {α : Type} [DecidableEq α] (given : Option α) (derived : α) : Bool :=
  match given with
  | some x => x ≠ derived
  | none => false

/-- The dict branch of `prepare` when `tensor_fqn` is absent (lines
195–202): resolve the module's own path, trim a leading dot, and fix
`tensor_name = "weight"`. -/
def prepareModuleEntry (root : MTree) (m : Nat) : Except PrepareErr StoredGroup :=
  match moduleToFqnT m root [] with
  | none => .error .typeErrorNonePath
  | some p =>
    let mf := trimLeadingDot p
    .ok { modules := [some m], module_fqns := [mf], tensor_names := [weightS],
          tensor_fqns := [mf ++ '.' :: weightS] }

/-- The module-path resolution of the tuple branch (lines 162–170):
`module_to_fqn`, `None` replaced by `''`, leading dot trimmed. -/
def resolveTrimmed (root : MTree) (m : Nat) : Str :=
  trimLeadingDot ((moduleToFqnT m root []).getD [])

/-- The body of `prepare`'s normalization loop for one config entry (lines
152–203), producing the group record appended to `self.groups` or the error
the corresponding `assert` / lookup raises.  The three field-agreement
checks of the `for key in info_from_tensor_fqn.keys()` loop all raise the
same `AssertionError`, so they are collapsed into one disjunction. -/
def prepareEntry (env : Nat → MKind) (root : MTree) (e : ConfigEntry) :
    Except PrepareErr StoredGroup :=
  match e with
  | .pair m0 m1 =>
    if env m0 = .conv2d ∧ env m1 = .batchNorm2d then
      let mf0 := resolveTrimmed root m0
      let mf1 := resolveTrimmed root m1
      .ok { modules := [some m0, some m1],
            module_fqns := [mf0, mf1],
            tensor_names := [weightS, weightS],
            tensor_fqns := [mf0 ++ '.' :: weightS, mf1 ++ '.' :: weightS] }
    else .error .assertPairKinds
  | .dict d =>
    match d.tensor_fqn with
    | some f =>
      let info := getArgInfoFromTensorFqn root f
      if conflictsWith d.module_fqn info.module_fqn
          || (match d.module with
              | some m => decide (info.module ≠ some m)
              | none => false)
          || conflictsWith d.tensor_name info.tensor_name then
        .error .assertFieldAgreement
      else
        .ok { modules := [info.module], module_fqns := [info.module_fqn],
              tensor_names := [info.tensor_name], tensor_fqns := [info.tensor_fqn] }
    | none =>
      match d.module with
      | some m => prepareModuleEntry root m
      | none => .error .keyErrorModule
  | .moduleRef m => prepareModuleEntry root m

/-- The whole normalization loop of `prepare`: every entry in order, the
first raised error propagating. -/
def prepareConfig (env : Nat → MKind) (root : MTree) :
    List ConfigEntry → Except PrepareErr (List StoredGroup)
  | [] => .ok []
  | e :: es => do
    let g ← prepareEntry env root e
    let gs ← prepareConfig env root es
    .ok (g :: gs)

/-! ## Auto-discovery (`make_config_from_model`, lines 117–129) -/

mutual

/-- Size of a tree (for the termination of the stack loop). -/
def sizeT : MTree → Nat
  | .node _ cs => 1 + sizeL cs

/-- Size of a child list. -/
def sizeL : List (Str × MTree) → Nat
  | [] => 0
  | (_, c) :: rest => sizeT c + sizeL rest
end

/-- Size of a stack of trees. -/
def sizeS : List MTree → Nat
  | [] => 0
  | t :: rest => sizeT t + sizeS rest

/-- The `for name, child in module.named_children()` loop body of
`make_config_from_model`: a child whose exact type is in `SUPPORTED_MODULES`
contributes the config entry `module_to_fqn(model, child) + '.weight'`;
otherwise, if its exact type is in `NEEDS_ZEROS` and `self.prune_bias` is
set, a warning is recorded (carrying the child's type, as in the message),
and either way the non-supported child is pushed for further traversal.
Returns (new config entries, new warnings, pushed children), each in
enumeration order. -/
def processChildren (env : Nat → MKind) (root : MTree) (sup nz : List MKind)
    (pruneBias : Bool) : List (Str × MTree) → List Str × List MKind × List MTree
  | [] => ([], [], [])
  | (_, child) :: rest =>
    let r := processChildren env root sup nz pruneBias rest
    if env child.id ∈ sup then
      (((moduleToFqnT child.id root []).getD [] ++ '.' :: weightS) :: r.1, r.2.1, r.2.2)
    else
      if env child.id ∈ nz ∧ pruneBias then
        (r.1, env child.id :: r.2.1, child :: r.2.2)
      else
        (r.1, r.2.1, child :: r.2.2)

/-- The `while stack` loop of `make_config_from_model`: pop the top module,
process its children, push the non-supported children (the last-pushed child
is popped next, as with a Python list used as a stack), and accumulate
config entries and warnings. -/
def discoverGo (env : Nat → MKind) (root : MTree) (sup nz : List MKind) (pb : Bool)
    (stack : List MTree) (cfg : List Str) (ws : List MKind) :
    List Str × List MKind :=
  match stack with
  | [] => (cfg, ws)
  | .node i cs :: stack1 =>
    let r := processChildren env root sup nz pb cs
    discoverGo env root sup nz pb (r.2.2.reverse ++ stack1) (cfg ++ r.1) (ws ++ r.2.1)
termination_by sizeS stack
decreasing_by
  have happ : ∀ a b : List MTree, sizeS (a ++ b) = sizeS a + sizeS b := by
    intro a b
    induction a with
    | nil => simp [sizeS]
    | cons t rest ih => simp [sizeS, ih]; ring
  have hrev : ∀ a : List MTree, sizeS a.reverse = sizeS a := by
    intro a
    induction a with
    | nil => rfl
    | cons t rest ih => simp [sizeS, List.reverse_cons, happ, ih]; ring
  have hpc : ∀ cs2 : List (Str × MTree),
      sizeS (processChildren env root sup nz pb cs2).2.2 ≤ sizeL cs2 := by
    intro cs2
    induction cs2 with
    | nil => simp [processChildren, sizeS, sizeL]
    | cons hd tl ih =>
      obtain ⟨n, c⟩ := hd
      simp only [processChildren, sizeL]
      split
      · exact le_add_of_nonneg_of_le (Nat.zero_le _) ih
      · split <;> simpa [sizeS] using ih
  calc sizeS ((processChildren env root sup nz pb cs).2.2.reverse ++ stack1)
      = sizeS (processChildren env root sup nz pb cs).2.2 + sizeS stack1 := by
        rw [happ, hrev]
    _ ≤ sizeL cs + sizeS stack1 := Nat.add_le_add_right (hpc cs) _
    _ < sizeT (MTree.node i cs) + sizeS stack1 := by
        simp only [sizeT]; omega
    _ = sizeS (MTree.node i cs :: stack1) := rfl

/-- Embedding of `make_config_from_model(model, SUPPORTED_MODULES,
NEEDS_ZEROS)`: depth-first traversal from the root, returning the generated
config entries (each a `tensor_fqn` string) and the recorded warnings. -/
def makeConfigFromModel (env : Nat → MKind) (root : MTree) (sup nz : List MKind)
    (pb : Bool) : List Str × List MKind :=
  discoverGo env root sup nz pb [root] [] []

/-- Auto-discovery as invoked by `prepare(model, None)`: the default
argument sets. -/
def makeConfigDefault (env : Nat → MKind) (root : MTree) (pb : Bool) :
    List Str × List MKind :=
  makeConfigFromModel env root SUPPORTED_MODULES NEEDS_ZEROS pb

/-! ## Helper lemmas about `_prepare`'s per-module step -/

/-- A linear layer with two output slots and no bias. -/
def testLinear : Module := { kind := .linear, weight := [3, 4] }

/-- A conv layer with three output channels and a bias. -/
def testConv : Module := { kind := .conv2d, weight := [1, 2, 3], bias := some 5 }

/-- A batch-norm layer with three slots. -/
def testBN : Module := { kind := .batchNorm2d, weight := [7, 8, 9] }

/-- A module of an unrecognized class. -/
def testOther : Module := { kind := .other, weight := [1] }

/-- A heap whose module 0 is `testConv` and whose module 1 is `testBN`. -/
def hPair : Heap :=
  { mods := fun i => if i = 0 then testConv else testBN,
    sets := fun _ => [], nextRef := 0, activationHandles := [], biasHandles := [] }

/-- The paired `(Conv2d, BatchNorm2d)` group over `hPair`. -/
def gPair : Group := { moduleIds := [0, 1], tensorNames := [weightS, weightS] }

/-- A heap of `testLinear` modules. -/
def hLin : Heap :=
  { mods := fun _ => testLinear,
    sets := fun _ => [], nextRef := 0, activationHandles := [], biasHandles := [] }

/-- A heap of unrecognized modules. -/
def hOther : Heap :=
  { mods := fun _ => testOther,
    sets := fun _ => [], nextRef := 0, activationHandles := [], biasHandles := [] }

/-- A prepared linear module: mask registered, pruning parametrization
attached, its pruned-output set (reference 0) holding index 1. -/
def sqM : Module :=
  { kind := .linear, weight := [10, 20, 30], mask := some 3, param := some ⟨.pruning, 0⟩ }

/-- A heap of prepared `sqM` modules, with pruned set `{1}` at reference 0. -/
def hSq : Heap :=
  { mods := fun _ => sqM,
    sets := fun r => if r = 0 then [1] else [], nextRef := 1,
    activationHandles := [], biasHandles := [] }

/-! ## The claims -/

/-- A well-formed child name: nonempty and not starting with a dot (true of
every attribute name a module tree can carry). -/
def goodName (n : Str) : Bool :=
  decide (n ≠ []) && decide (n.head? ≠ some '.')

/-- All names in a child list (and recursively below it) are well formed. -/
def wfNamesL : List (Str × MTree) → Bool
  | [] => true
  | (n, .node _ cs) :: rest => goodName n && wfNamesL cs && wfNamesL rest

/-- All names in a tree are well formed. -/
def wfNamesT : MTree → Bool
  | .node _ cs => wfNamesL cs

/-- Well-formedness of a config entry, as needed for the path invariant:
modules referenced directly must actually live in the tree (otherwise the
source builds paths from `''`), and a supplied `tensor_fqn`, once its leading
dot is chopped, must not start with another dot and must contain a dot
(i.e. it must name a tensor inside a proper submodule). -/
def entryWf (root : MTree) (e : ConfigEntry) : Bool :=
  match e with
  | .pair m0 m1 => (moduleToFqnT m0 root []).isSome && (moduleToFqnT m1 root []).isSome
  | .dict d =>
    match d.tensor_fqn with
    | some f =>
      decide ((trimLeadingDot f).head? ≠ some '.') && (lastDotSplit (trimLeadingDot f)).isSome
    | none => true
  | .moduleRef _ => true

/-- A model tree with a conv child `cv` (id 1) and a norm child `bn` (id 2). -/
def rootW : MTree := .node 0 [(['c', 'v'], .node 1 []), (['b', 'n'], .node 2 [])]

/-- Kinds for `rootW`: module 1 is a conv, module 2 a batch norm. -/
def envW : Nat → MKind :=
  fun i => if i = 1 then .conv2d else if i = 2 then .batchNorm2d else .other

/-- The group record stored for the entry `{'tensor_fqn': '.bn.weight'}`. -/
def gW : StoredGroup :=
  { modules := [some 2], module_fqns := [['b', 'n']], tensor_names := [weightS],
    tensor_fqns := [['b', 'n'] ++ '.' :: weightS] }

/-- A model tree whose only child is `bn` (id 1), a `BatchNorm2d`. -/
def bnRoot : MTree := .node 0 [(['b', 'n'], .node 1 [])]

/-- Kinds for `bnRoot`: module 1 is a batch norm. -/
def envBN : Nat → MKind := fun i => if i = 1 then .batchNorm2d else .other

/-! ## Lemmas and claim theorems -/

theorem biasStep_mods_ne (h : Heap) (mid i : Nat) (hne : i ≠ mid) :
    (biasStep h mid).mods i = h.mods i := by
  simp [biasStep, Heap.setMod, hne]

theorem biasStep_mods_self (h : Heap) (mid : Nat) :
    (biasStep h mid).mods mid =
      match (h.mods mid).bias with
      | some b => { h.mods mid with biasParam := some b, bias := none }
      | none => h.mods mid := by
  simp [biasStep, Heap.setMod]

theorem biasStep_biasHandles (h : Heap) (mid : Nat) :
    (biasStep h mid).biasHandles = h.biasHandles ++ [mid] := by
  simp [biasStep, Heap.setMod]

theorem biasStep_activationHandles (h : Heap) (mid : Nat) :
    (biasStep h mid).activationHandles = h.activationHandles := by
  simp [biasStep, Heap.setMod]

theorem biasStep_preserves (h : Heap) (mid : Nat) :
    ((biasStep h mid).mods mid).kind = (h.mods mid).kind ∧
    ((biasStep h mid).mods mid).weight = (h.mods mid).weight ∧
    ((biasStep h mid).mods mid).mask = (h.mods mid).mask ∧
    ((biasStep h mid).mods mid).param = (h.mods mid).param := by
  rw [biasStep_mods_self]
  cases (h.mods mid).bias <;> simp

theorem processOne_mods_ne (ov : Option PVariant) (h : Heap) (mid i : Nat)
    (hne : i ≠ mid) : ((processOne ov h mid).1.mods i) = h.mods i := by
  simp only [processOne]
  split
  · simp [biasStep, Heap.setMod, hne]
  · split
    · simp [biasStep, Heap.setMod, hne]
    · simp [Heap.setMod, hne]

theorem processOne_param (ov : Option PVariant) (h : Heap) (mid : Nat) :
    ((processOne ov h mid).1.mods mid).param =
      some ⟨ov.getD (if needsZeros (h.mods mid).kind then .zeroes else .pruning),
            h.nextRef⟩ := by
  simp only [processOne]
  split
  · next hz =>
    rw [biasStep_mods_self]
    split <;> simp_all [Heap.setMod]
  · next hz =>
    simp only [Bool.not_eq_true] at hz
    split
    · rw [biasStep_mods_self]
      split <;> simp_all [Heap.setMod]
    · simp_all [Heap.setMod]

theorem processOne_mask (ov : Option PVariant) (h : Heap) (mid : Nat) :
    ((processOne ov h mid).1.mods mid).mask =
      some ((h.mods mid).mask.getD (h.mods mid).weight.length) := by
  simp only [processOne]
  split
  · rw [biasStep_mods_self]
    cases hm : (h.mods mid).mask <;> split <;> simp_all [Heap.setMod]
  · split
    · rw [biasStep_mods_self]
      cases hm : (h.mods mid).mask <;> split <;> simp_all [Heap.setMod]
    · cases hm : (h.mods mid).mask <;> simp_all [Heap.setMod]

theorem processOne_snd (ov : Option PVariant) (h : Heap) (mid : Nat) :
    (processOne ov h mid).2 =
      if needsZeros (h.mods mid).kind then none
      else if isSupported (h.mods mid).kind then none
      else some .notImplementedError := by
  simp only [processOne]
  split
  · simp_all
  · split
    · simp_all
    · simp_all

theorem processOne_activationHandles (ov : Option PVariant) (h : Heap) (mid : Nat) :
    (processOne ov h mid).1.activationHandles =
      if needsZeros (h.mods mid).kind then h.activationHandles
      else if isSupported (h.mods mid).kind then h.activationHandles ++ [mid]
      else h.activationHandles := by
  simp only [processOne]
  split
  · simp_all [biasStep_activationHandles, biasStep, Heap.setMod]
  · split
    · simp_all [biasStep_activationHandles, biasStep, Heap.setMod]
    · simp_all [Heap.setMod]

theorem processOne_biasHandles_ok (ov : Option PVariant) (h : Heap) (mid : Nat)
    (hok : (processOne ov h mid).2 = none) :
    (processOne ov h mid).1.biasHandles = h.biasHandles ++ [mid] := by
  simp only [processOne] at hok ⊢
  split at hok
  · simp_all [biasStep_biasHandles, biasStep, Heap.setMod]
  · split at hok
    · simp_all [biasStep_biasHandles, biasStep, Heap.setMod]
    · simp_all

theorem processOne_bias_some (ov : Option PVariant) (h : Heap) (mid : Nat) (b : Int)
    (hok : (processOne ov h mid).2 = none) (hb : (h.mods mid).bias = some b) :
    ((processOne ov h mid).1.mods mid).bias = none ∧
    ((processOne ov h mid).1.mods mid).biasParam = some b := by
  simp only [processOne] at hok ⊢
  split
  · rw [biasStep_mods_self]
    by_cases hm : (h.mods mid).mask = none <;> simp_all [Heap.setMod]
  · split
    · rw [biasStep_mods_self]
      by_cases hm : (h.mods mid).mask = none <;> simp_all [Heap.setMod]
    · simp_all

theorem processOne_bias_none (ov : Option PVariant) (h : Heap) (mid : Nat)
    (hb : (h.mods mid).bias = none) :
    ((processOne ov h mid).1.mods mid).bias = none ∧
    ((processOne ov h mid).1.mods mid).biasParam = (h.mods mid).biasParam := by
  simp only [processOne]
  split
  · rw [biasStep_mods_self]
    by_cases hm : (h.mods mid).mask = none <;> simp_all [Heap.setMod]
  · split
    · rw [biasStep_mods_self]
      by_cases hm : (h.mods mid).mask = none <;> simp_all [Heap.setMod]
    · by_cases hm : (h.mods mid).mask = none <;> simp_all [Heap.setMod]

/-! ## Concrete instances used by the witnesses -/

/-- C4: during `_prepare`, a module whose type is neither in the
supported-module set nor in the needs-zeroing set makes the per-module step
raise `NotImplementedError`, and the error propagates uncaught through the
module loop and the whole `_prepare` group loop. -/
theorem c4_unsupported_module_fatal (ov : Option PVariant) (h : Heap) (mid : Nat)
    (hsup : isSupported (h.mods mid).kind = false)
    (hz : needsZeros (h.mods mid).kind = false) :
    (processOne ov h mid).2 = some .notImplementedError ∧
    (∀ rest, (processModules ov h (mid :: rest)).2 = some .notImplementedError) ∧
    (∀ (g : Group) (gs : List Group), g.moduleIds = mid :: [] → g.override = ov →
      (basePrepare h (g :: gs)).2 = some .notImplementedError) := by
  have h1 : (processOne ov h mid).2 = some .notImplementedError := by
    rw [processOne_snd, hsup, hz]
    simp
  refine ⟨h1, ?_, ?_⟩
  · intro rest
    simp only [processModules]
    rcases hp : processOne ov h mid with ⟨ha, e⟩
    rw [hp] at h1
    simp at h1
    subst h1
    simp
  · intro g gs hg hov
    simp only [basePrepare, processGroup, hg, hov, processModules]
    rcases hp : processOne ov h mid with ⟨ha, e⟩
    rw [hp] at h1
    simp at h1
    subst h1
    simp

/-- Witness for C4 at a concrete unrecognized module. -/
theorem c4_witness :
    (processOne none hOther 0).2 = some .notImplementedError ∧
    (basePrepare hOther
      (({ moduleIds := [0], tensorNames := [weightS] } : Group) :: [])).2 =
      some .notImplementedError := by
  have h := c4_unsupported_module_fatal none hOther 0 (by decide) (by decide)
  exact ⟨h.1, h.2.2 { moduleIds := [0], tensorNames := [weightS] } [] rfl rfl⟩

/-- C6: in `_prepare`'s per-module step the mask buffer ends up being
`some (old mask, defaulting to the weight's dimension-0 length)` — i.e. it
is created, sized to the tensor's dimension-0 length, exactly when no mask
existed, and a pre-existing mask is left untouched; and a `step` call (which
only lets the abstract updater mutate the pruned-output sets, per the
updater contract) changes no module's mask registration or value. -/
theorem c6_mask_creation (ov : Option PVariant) (h : Heap) (mid : Nat) :
    ((processOne ov h mid).1.mods mid).mask =
      some ((h.mods mid).mask.getD (h.mods mid).weight.length) ∧
    (∀ ns : Nat → List Nat, ∀ i, ((stepSets h ns).mods i).mask = (h.mods i).mask) :=
  ⟨processOne_mask ov h mid, fun _ _ => rfl⟩

/-- C7: `_prepare` selects the transformation variant by membership of the
module's type in the needs-zeroing set — the zero-filling default for
needs-zeroing modules, the dimension-removing default otherwise, either one
overridden by the group's `'parametrization'` entry — and registers an
activation-reconstruction hook exactly for the supported non-zeroing
modules. -/
theorem c7_variant_selection (ov : Option PVariant) (h : Heap) (mid : Nat) :
    ((processOne ov h mid).1.mods mid).param =
      some ⟨ov.getD (if needsZeros (h.mods mid).kind then .zeroes else .pruning),
            h.nextRef⟩ ∧
    (processOne ov h mid).1.activationHandles =
      (if needsZeros (h.mods mid).kind then h.activationHandles
       else if isSupported (h.mods mid).kind then h.activationHandles ++ [mid]
       else h.activationHandles) :=
  ⟨processOne_param ov h mid, processOne_activationHandles ov h mid⟩

/-- C10: for every module `_prepare` processes without raising, a
bias-adjustment hook handle is appended unconditionally — also when the
module has no bias — while detaching the bias into `_bias` and clearing
`bias` happen exactly when a bias is present. -/
theorem c10_bias_hook_unconditional (ov : Option PVariant) (h : Heap) (mid : Nat)
    (hok : (processOne ov h mid).2 = none) :
    (processOne ov h mid).1.biasHandles = h.biasHandles ++ [mid] ∧
    (∀ b, (h.mods mid).bias = some b →
      ((processOne ov h mid).1.mods mid).bias = none ∧
      ((processOne ov h mid).1.mods mid).biasParam = some b) ∧
    ((h.mods mid).bias = none →
      ((processOne ov h mid).1.mods mid).bias = none ∧
      ((processOne ov h mid).1.mods mid).biasParam = (h.mods mid).biasParam) :=
  ⟨processOne_biasHandles_ok ov h mid hok,
   fun b hb => processOne_bias_some ov h mid b hok hb,
   fun hb => processOne_bias_none ov h mid hb⟩

/-- Witness for C10: a biasless linear module still gets a bias hook, and a
conv module with bias 5 gets it detached. -/
theorem c10_witness :
    ((processOne none hLin 0).1.biasHandles = hLin.biasHandles ++ [0] ∧
     ((processOne none hLin 0).1.mods 0).biasParam = (hLin.mods 0).biasParam) ∧
    (((processOne none hPair 0).1.mods 0).bias = none ∧
     ((processOne none hPair 0).1.mods 0).biasParam = some 5) := by
  have h1 := c10_bias_hook_unconditional none hLin 0 (by decide)
  have h2 := c10_bias_hook_unconditional none hPair 0 (by decide)
  exact ⟨⟨h1.1, (h1.2.2 (by decide)).2⟩, h2.2.1 5 (by decide)⟩

/-- C1: when `_prepare` processes a paired two-module group without raising,
the two modules' parametrizations end up holding the very same pruned-output
set reference (the line-115 alias assignment), so however the set heap is
later mutated in place — which is all a `step` call's updater does — the
pruned-output sets seen through the two modules stay equal. -/
theorem c1_pair_alias (h : Heap) (g : Group) (mid0 mid1 : Nat)
    (hids : g.moduleIds = [mid0, mid1]) (hne : mid1 ≠ mid0)
    (hok : (processGroup h g).2 = none) :
    (∃ r, prunedRefOf (processGroup h g).1 mid0 = some r ∧
          prunedRefOf (processGroup h g).1 mid1 = some r) ∧
    (∀ ns : Nat → List Nat,
      viewPrunedOutputs (stepSets (processGroup h g).1 ns) mid0 =
      viewPrunedOutputs (stepSets (processGroup h g).1 ns) mid1) := by
  rcases hp0 : processOne g.override h mid0 with ⟨h1, e0⟩
  rcases hp1 : processOne g.override h1 mid1 with ⟨h2, e1⟩
  have hgrp : processGroup h g =
      match processModules g.override h [mid0, mid1] with
      | (h1, some e) => (h1, some e)
      | (h1, none) => (aliasPair h1 mid0 mid1, none) := by
    simp only [processGroup, hids]
    rcases processModules g.override h [mid0, mid1] with ⟨ha, e⟩
    cases e <;> simp [List.getD]
  have hmod : processModules g.override h [mid0, mid1] =
      match e0 with
      | some e => (h1, some e)
      | none => match e1 with
        | some e => (h2, some e)
        | none => (h2, none) := by
    simp only [processModules, hp0]
    cases e0
    · simp only [processModules, hp1]
      cases e1 <;> simp
    · simp
  cases e0 with
  | some e =>
    rw [hgrp, hmod] at hok
    simp at hok
  | none =>
    cases e1 with
    | some e =>
      rw [hgrp, hmod] at hok
      simp at hok
    | none =>
      have hres : processGroup h g = (aliasPair h2 mid0 mid1, none) := by
        rw [hgrp, hmod]
      have hq0 : (h2.mods mid0).param =
          some ⟨g.override.getD
            (if needsZeros (h.mods mid0).kind then .zeroes else .pruning), h.nextRef⟩ := by
        have e1 := processOne_mods_ne g.override h1 mid1 mid0 (Ne.symm hne)
        have e2 := processOne_param g.override h mid0
        rw [hp1] at e1
        rw [hp0] at e2
        simp at e1 e2
        rw [e1, e2]
      have hq1 : ∃ v1, (h2.mods mid1).param = some ⟨v1, h1.nextRef⟩ := by
        have e2 := processOne_param g.override h1 mid1
        rw [hp1] at e2
        simp at e2
        exact ⟨_, e2⟩
      obtain ⟨v1, hq1⟩ := hq1
      have halias : ∀ i, ((aliasPair h2 mid0 mid1).mods i).param =
          if i = mid1 then some ⟨v1, h.nextRef⟩ else (h2.mods i).param := by
        intro i
        simp only [aliasPair, hq0, hq1, Heap.setMod]
        by_cases hi : i = mid1 <;> simp [hi, hq1]
      refine ⟨⟨h.nextRef, ?_, ?_⟩, ?_⟩
      · rw [hres]
        simp [prunedRefOf, halias, hne, Ne.symm hne, hq0]
      · rw [hres]
        simp [prunedRefOf, halias]
      · intro ns
        rw [hres]
        simp [viewPrunedOutputs, stepSets, halias, hne, Ne.symm hne, hq0]

/-- Witness for C1 at the concrete `(Conv2d, BatchNorm2d)` pair. -/
theorem c1_witness :
    (∃ r, prunedRefOf (processGroup hPair gPair).1 0 = some r ∧
          prunedRefOf (processGroup hPair gPair).1 1 = some r) ∧
    (∀ ns : Nat → List Nat,
      viewPrunedOutputs (stepSets (processGroup hPair gPair).1 ns) 0 =
      viewPrunedOutputs (stepSets (processGroup hPair gPair).1 ns) 1) :=
  c1_pair_alias hPair gPair 0 1 rfl (by decide) (by decide)

/-- C2 (bug evidence): `step` with updates enabled passes the *raw* group
record to `update_mask` — for the paired group both module ids `[0, 1]` and
both tensor names arrive in one call, not just the first module's — while
`step` with updates disabled dispatches nothing.  The locally built
`untupled_args` dict holding only `modules[0]` / `tensor_names[0]` is dead
code in the source. -/
theorem c2_step_passes_raw_config :
    step true [gPair] =
      [{ module := [0, 1], tensor_name := [weightS, weightS] }] ∧
    step false [gPair] = [] := by
  constructor <;> rfl

/-- C5: squashing a prepared module (parametrization attached, mask
registered) succeeds, bakes the transformed (masked) value in as the
permanent weight, removes the parametrization and the mask attribute — and
squashing the very same group a second time fails with the
not-parametrized precondition error. -/
theorem c5_squash_twice_fails (h : Heap) (mid : Nat) (p : Parametrization) (mv : Nat)
    (hp : (h.mods mid).param = some p) (hm : (h.mods mid).mask = some mv) :
    (squashGroup h [mid]).2 = none ∧
    ((squashGroup h [mid]).1.mods mid).param = none ∧
    ((squashGroup h [mid]).1.mods mid).mask = none ∧
    ((squashGroup h [mid]).1.mods mid).weight =
      applyVariant p.variant (h.sets p.prunedRef) (h.mods mid).weight ∧
    (squashGroup (squashGroup h [mid]).1 [mid]).2 = some .notParametrized := by
  simp [squashGroup, squashModule, hp, hm, Heap.setMod]

/-! ## Path well-formedness and shape lemmas for the config claims -/

theorem head?_append_left (a b : Str) (ha : a ≠ []) : (a ++ b).head? = a.head? := by
  cases a <;> simp_all

theorem lastDotSplit_eq (s : Str) :
    ∀ b a, lastDotSplit s = some (b, a) → s = b ++ '.' :: a := by
  induction s with
  | nil => intro b a h; simp [lastDotSplit] at h
  | cons c rest ih =>
    intro b a h
    simp only [lastDotSplit] at h
    cases hr : lastDotSplit rest with
    | some ba =>
      obtain ⟨b1, a1⟩ := ba
      rw [hr] at h
      simp only [Option.some.injEq, Prod.mk.injEq] at h
      obtain ⟨hb, ha⟩ := h
      subst hb
      subst ha
      have hrest := ih b1 a1 hr
      simp [hrest]
    | none =>
      rw [hr] at h
      by_cases hc : c = '.'
      · rw [if_pos hc] at h
        simp only [Option.some.injEq, Prod.mk.injEq] at h
        obtain ⟨hb, ha⟩ := h
        subst hb
        subst ha
        simp [hc]
      · rw [if_neg hc] at h
        simp at h

/-- A found module path extends the prefix with a dot and a nonempty,
dot-free-headed remainder — provided the tree names are well formed. -/
theorem moduleToFqnL_shape (target : Nat) (cs : List (Str × MTree)) (pre : Str) :
    ∀ p, wfNamesL cs = true → moduleToFqnL target cs pre = some p →
      ∃ s, p = pre ++ '.' :: s ∧ s ≠ [] ∧ s.head? ≠ some '.' := by
  induction cs, pre using moduleToFqnL.induct target with
  | case1 x =>
    intro p hwf h
    simp [moduleToFqnL] at h
  | case2 name cs rest pre =>
    intro p hwf h
    simp only [moduleToFqnL, if_pos rfl] at h
    simp only [wfNamesL, Bool.and_eq_true, goodName, decide_eq_true_eq] at hwf
    refine ⟨name, ?_, ?_, ?_⟩ <;> simp_all
  | case3 name i cs rest pre nn hne q hq ih =>
    intro p hwf h
    simp only [wfNamesL, Bool.and_eq_true, goodName, decide_eq_true_eq] at hwf
    have hq2 : moduleToFqnL target cs (pre ++ '.' :: name) = some q := hq
    simp only [moduleToFqnL, if_neg hne, hq2] at h
    obtain ⟨s1, hs1, hne1, hhd1⟩ := ih q (by simp_all) hq
    have hp : p = q := by simp_all
    subst hp
    refine ⟨name ++ '.' :: s1, ?_, by simp, ?_⟩
    · rw [hs1]
      show (pre ++ '.' :: name) ++ '.' :: s1 = pre ++ '.' :: (name ++ '.' :: s1)
      simp
    · rw [head?_append_left]
      · simp_all
      · simp_all
  | case4 name i cs rest pre nn hne hq ihc ih =>
    intro p hwf h
    simp only [wfNamesL, Bool.and_eq_true, goodName, decide_eq_true_eq] at hwf
    have hq2 : moduleToFqnL target cs (pre ++ '.' :: name) = none := hq
    simp only [moduleToFqnL, if_neg hne, hq2] at h
    exact ih p (by simp_all) h

/-- The trimmed resolution of a found in-tree module is nonempty and has no
leading dot. -/
theorem resolveTrimmed_shape (root : MTree) (m : Nat) (hwf : wfNamesT root = true)
    (hsome : (moduleToFqnT m root []).isSome = true) :
    resolveTrimmed root m ≠ [] ∧ (resolveTrimmed root m).head? ≠ some '.' := by
  obtain ⟨r, cs⟩ := root
  obtain ⟨p, hp⟩ := Option.isSome_iff_exists.1 hsome
  have hp2 : moduleToFqnL m cs [] = some p := by
    simpa [moduleToFqnT] using hp
  obtain ⟨s, hs, hsne, hshd⟩ := moduleToFqnL_shape m cs [] p (by simpa [wfNamesT] using hwf) hp2
  have : resolveTrimmed (.node r cs) m = s := by
    simp [resolveTrimmed, moduleToFqnT, hp2, hs, trimLeadingDot]
  rw [this]
  exact ⟨hsne, hshd⟩

theorem prepareModuleEntry_inv (root : MTree) (m : Nat) (g : StoredGroup)
    (hwf : wfNamesT root = true) (hok : prepareModuleEntry root m = .ok g) :
    ∃ s, s ≠ [] ∧ s.head? ≠ some '.' ∧
      g = { modules := [some m], module_fqns := [s], tensor_names := [weightS],
            tensor_fqns := [s ++ '.' :: weightS] } := by
  obtain ⟨r, cs⟩ := root
  simp only [prepareModuleEntry] at hok
  cases hp : moduleToFqnT m (.node r cs) [] with
  | none => rw [hp] at hok; simp at hok
  | some p =>
    rw [hp] at hok
    have hp2 : moduleToFqnL m cs [] = some p := by simpa [moduleToFqnT] using hp
    obtain ⟨s, hs, hsne, hshd⟩ :=
      moduleToFqnL_shape m cs [] p (by simpa [wfNamesT] using hwf) hp2
    refine ⟨s, hsne, hshd, ?_⟩
    simp only [Except.ok.injEq] at hok
    rw [← hok]
    subst hs
    simp [trimLeadingDot]

/-- C8 as amended: every group record `prepare` stores satisfies, position
by position (the paired branch builds parallel lists), the invariant that
the stored `tensor_fqn` is `module_fqn + "." + tensor_name` — provided the
supplied or derived path names a tensor inside a proper submodule, i.e. for
a dict entry carrying a `tensor_fqn` the path still contains a dot after the
leading-dot chop and does not start with a second dot (`entryWf`; the
dotless path `'weight'` on a root carrying the tensor is the exception
exhibited in the counterexample), tree names are nonempty and dot-free, and
directly referenced modules resolve; and the leading-dot artifact of
root-level path resolution is trimmed before storage, so no stored
`module_fqn` or `tensor_fqn` begins with a dot. -/
theorem c8_tensor_fqn_derivable (env : Nat → MKind) (root : MTree) (e : ConfigEntry)
    (g : StoredGroup) (hwf : wfNamesT root = true) (hewf : entryWf root e = true)
    (hok : prepareEntry env root e = .ok g) :
    g.tensor_fqns =
      List.zipWith (fun m t => m ++ '.' :: t) g.module_fqns g.tensor_names ∧
    (∀ mf ∈ g.module_fqns, mf.head? ≠ some '.') ∧
    (∀ tf ∈ g.tensor_fqns, tf.head? ≠ some '.') := by
  cases e with
  | pair m0 m1 =>
    simp only [prepareEntry] at hok
    split at hok
    · simp only [entryWf, Bool.and_eq_true] at hewf
      obtain ⟨hne0, hh0⟩ := resolveTrimmed_shape root m0 hwf hewf.1
      obtain ⟨hne1, hh1⟩ := resolveTrimmed_shape root m1 hwf hewf.2
      simp only [Except.ok.injEq] at hok
      rw [← hok]
      refine ⟨rfl, ?_, ?_⟩
      · intro mf hmf
        simp at hmf
        rcases hmf with hmf | hmf <;> rw [hmf]
        · exact hh0
        · exact hh1
      · intro tf htf
        simp at htf
        rcases htf with htf | htf <;> rw [htf, head?_append_left]
        · exact hh0
        · exact hne0
        · exact hh1
        · exact hne1
    · simp at hok
  | dict d =>
    cases hfq : d.tensor_fqn with
    | some f =>
      simp only [prepareEntry, hfq] at hok
      split at hok
      · simp at hok
      · simp only [entryWf, hfq, Bool.and_eq_true, decide_eq_true_eq] at hewf
        obtain ⟨hhd, hsplit⟩ := hewf
        obtain ⟨⟨b, a⟩, hba⟩ := Option.isSome_iff_exists.1 hsplit
        have hchop := lastDotSplit_eq (trimLeadingDot f) b a hba
        have hbne : b ≠ [] := by
          intro hb
          subst hb
          rw [hchop] at hhd
          simp at hhd
        have hbhd : b.head? ≠ some '.' := by
          rw [hchop, head?_append_left b ('.' :: a) hbne] at hhd
          exact hhd
        simp only [getArgInfoFromTensorFqn, hba, Except.ok.injEq] at hok
        rw [← hok]
        refine ⟨by simp [hchop], ?_, ?_⟩
        · intro mf hmf
          simp at hmf
          rw [hmf]
          exact hbhd
        · intro tf htf
          simp at htf
          rw [htf, hchop, head?_append_left b ('.' :: a) hbne]
          exact hbhd
    | none =>
      cases hm : d.module with
      | some m =>
        simp only [prepareEntry, hfq, hm] at hok
        obtain ⟨s, hsne, hshd, hg⟩ := prepareModuleEntry_inv root m g hwf hok
        subst hg
        refine ⟨rfl, ?_, ?_⟩
        · intro mf hmf
          simp at hmf
          rw [hmf]
          exact hshd
        · intro tf htf
          simp at htf
          rw [htf, head?_append_left s ('.' :: weightS) hsne]
          exact hshd
      | none =>
        simp [prepareEntry, hfq, hm] at hok
  | moduleRef m =>
    simp only [prepareEntry] at hok
    obtain ⟨s, hsne, hshd, hg⟩ := prepareModuleEntry_inv root m g hwf hok
    subst hg
    refine ⟨rfl, ?_, ?_⟩
    · intro mf hmf
      simp at hmf
      rw [hmf]
      exact hshd
    · intro tf htf
      simp at htf
      rw [htf, head?_append_left s ('.' :: weightS) hsne]
      exact hshd

/-- C8 counterexample: the dict entry `{'tensor_fqn': 'weight'}` on a model
whose root itself carries the tensor is accepted by `prepare` without any
assert firing, and stores `module_fqn = ''` with `tensor_fqn = 'weight'` —
but `module_fqn + "." + tensor_name` is `'.weight'`, so the stored
`tensor_fqns` list differs from the combination the claim asserts, refuting
the invariant as stated. -/
theorem c8_counterexample :
    prepareEntry envW rootW (.dict { tensor_fqn := some weightS }) =
      .ok { modules := [some 0], module_fqns := [[]],
            tensor_names := [weightS], tensor_fqns := [weightS] } ∧
    ¬ ([weightS] : List Str) =
        List.zipWith (fun m t => m ++ '.' :: t) ([[]] : List Str) [weightS] := by
  constructor
  · rfl
  · decide

/-- Witness for C8 at the concrete entry `{'tensor_fqn': '.bn.weight'}`. -/
theorem c8_witness :
    gW.tensor_fqns =
      List.zipWith (fun m t => m ++ '.' :: t) gW.module_fqns gW.tensor_names ∧
    (∀ mf ∈ gW.module_fqns, mf.head? ≠ some '.') ∧
    (∀ tf ∈ gW.tensor_fqns, tf.head? ≠ some '.') :=
  c8_tensor_fqn_derivable envW rootW
    (.dict { tensor_fqn := some ('.' :: 'b' :: 'n' :: '.' :: weightS) }) gW
    (by simp [wfNamesT, wfNamesL, goodName, rootW])
    (by decide)
    (by rfl)

/-- C9: in `prepare`, when a dict entry supplies a `tensor_fqn`, any other
field supplied explicitly (`module_fqn`, `module`, `tensor_name`) must agree
with the value recovered by parsing the path, else the entry fails with the
field-agreement assertion; when all supplied fields agree the parsed values
are stored.  A tuple entry whose members are not exactly a
(`Conv2d`, `BatchNorm2d`) pair fails with the pair-kind assertion. -/
theorem c9_config_validation (env : Nat → MKind) (root : MTree) (d : DictConfig)
    (f : Str) (hf : d.tensor_fqn = some f) :
    (((∃ mf, d.module_fqn = some mf ∧ mf ≠ (getArgInfoFromTensorFqn root f).module_fqn) ∨
      (∃ m, d.module = some m ∧ (getArgInfoFromTensorFqn root f).module ≠ some m) ∨
      (∃ tn, d.tensor_name = some tn ∧ tn ≠ (getArgInfoFromTensorFqn root f).tensor_name)) →
      prepareEntry env root (.dict d) = .error .assertFieldAgreement) ∧
    ((∀ mf, d.module_fqn = some mf → mf = (getArgInfoFromTensorFqn root f).module_fqn) →
     (∀ m, d.module = some m → (getArgInfoFromTensorFqn root f).module = some m) →
     (∀ tn, d.tensor_name = some tn → tn = (getArgInfoFromTensorFqn root f).tensor_name) →
      prepareEntry env root (.dict d) =
        .ok { modules := [(getArgInfoFromTensorFqn root f).module],
              module_fqns := [(getArgInfoFromTensorFqn root f).module_fqn],
              tensor_names := [(getArgInfoFromTensorFqn root f).tensor_name],
              tensor_fqns := [(getArgInfoFromTensorFqn root f).tensor_fqn] }) ∧
    (∀ m0 m1 : Nat, ¬(env m0 = .conv2d ∧ env m1 = .batchNorm2d) →
      prepareEntry env root (.pair m0 m1) = .error .assertPairKinds) := by
  refine ⟨?_, ?_, ?_⟩
  · intro hbad
    simp only [prepareEntry, hf]
    rw [if_pos]
    rcases hbad with ⟨mf, hmf, hne⟩ | ⟨m, hm, hne⟩ | ⟨tn, htn, hne⟩
    · simp [conflictsWith, hmf, hne]
    · simp [hm, hne]
    · simp [conflictsWith, htn, hne]
  · intro h1 h2 h3
    simp only [prepareEntry, hf]
    rw [if_neg]
    simp only [Bool.or_eq_true, not_or]
    refine ⟨⟨?_, ?_⟩, ?_⟩
    · cases hmf : d.module_fqn with
      | none => simp [conflictsWith]
      | some mf => simp [conflictsWith, h1 mf hmf]
    · cases hm : d.module with
      | none => simp
      | some m => simp [h2 m hm]
    · cases htn : d.tensor_name with
      | none => simp [conflictsWith]
      | some tn => simp [conflictsWith, h3 tn htn]
  · intro m0 m1 hne
    simp [prepareEntry, hne]

/-- Witness for C9: a mismatching explicit `module_fqn`, an agreeing
explicit `tensor_name`, and a tuple whose first member is not a conv. -/
theorem c9_witness :
    prepareEntry envW rootW
      (.dict { tensor_fqn := some ('b' :: 'n' :: '.' :: weightS),
               module_fqn := some ['x'] }) = .error .assertFieldAgreement ∧
    prepareEntry envW rootW
      (.dict { tensor_fqn := some ('b' :: 'n' :: '.' :: weightS),
               tensor_name := some weightS }) =
      .ok { modules := [some 2], module_fqns := [['b', 'n']],
            tensor_names := [weightS],
            tensor_fqns := ['b' :: 'n' :: '.' :: weightS] } ∧
    prepareEntry envW rootW (.pair 2 1) = .error .assertPairKinds := by
  refine ⟨?_, ?_, ?_⟩
  · exact (c9_config_validation envW rootW _ _ rfl).1
      (Or.inl ⟨['x'], rfl, by decide⟩)
  · have h := (c9_config_validation envW rootW
      { tensor_fqn := some ('b' :: 'n' :: '.' :: weightS), tensor_name := some weightS }
      ('b' :: 'n' :: '.' :: weightS) rfl).2.1
      (by intro mf hmf; simp at hmf)
      (by intro m hm; simp at hm)
      (by intro tn htn; simp at htn; subst htn; decide)
    rw [h]
    rfl
  · exact (c9_config_validation envW rootW
      { tensor_fqn := some ('b' :: 'n' :: '.' :: weightS) }
      ('b' :: 'n' :: '.' :: weightS) rfl).2.2 2 1 (by decide)

/-- Under the hypothesis that every needs-zeroing kind is also supported —
true of the default sets — the discovery loop body never records a warning. -/
theorem processChildren_warns (env : Nat → MKind) (root : MTree) (sup nz : List MKind)
    (pb : Bool) (hsub : ∀ k ∈ nz, k ∈ sup) (cs : List (Str × MTree)) :
    (processChildren env root sup nz pb cs).2.1 = [] := by
  induction cs with
  | nil => simp [processChildren]
  | cons hd tl ih =>
    obtain ⟨n, c⟩ := hd
    simp only [processChildren]
    split
    · exact ih
    · next hns =>
      split
      · next hcond => exact absurd (hsub _ hcond.1) hns
      · exact ih

/-- Under the same subset hypothesis, the whole discovery stack loop leaves
the warning accumulator untouched. -/
theorem discoverGo_warns (env : Nat → MKind) (root : MTree) (sup nz : List MKind)
    (pb : Bool) (hsub : ∀ k ∈ nz, k ∈ sup) :
    ∀ (stack : List MTree) (cfg : List Str) (ws : List MKind),
      (discoverGo env root sup nz pb stack cfg ws).2 = ws := by
  intro stack cfg ws
  induction stack, cfg, ws using discoverGo.induct env root sup nz pb with
  | case1 cfg ws => simp [discoverGo]
  | case2 cfg ws i cs stack1 r ih =>
    simp only [discoverGo]
    rw [ih]
    have hpc : (processChildren env root sup nz pb cs).2.1 = [] :=
      processChildren_warns env root sup nz pb hsub cs
    show ws ++ (processChildren env root sup nz pb cs).2.1 = ws
    rw [hpc]
    simp

/-- C3 counterexample: with the default sets, auto-discovery on a tree whose
only child is an unconfigured `BatchNorm2d` *adds* that child as a config
entry (its type is in `SUPPORTED_MODULES`, the branch checked first) and
emits *no* warning — refuting the claim that such a child is warned about
and excluded from the generated config. -/
theorem c3_counterexample :
    makeConfigDefault envBN bnRoot true =
      (['.' :: 'b' :: 'n' :: '.' :: weightS], []) := by
  simp [makeConfigDefault, makeConfigFromModel, discoverGo, processChildren,
    MTree.children, MTree.id, envBN, bnRoot, SUPPORTED_MODULES, NEEDS_ZEROS,
    moduleToFqnT, moduleToFqnL, weightS]

/-- C3 amended: with the default sets auto-discovery never warns (every
needs-zeroing type is also supported, so the supported branch wins and the
child becomes a config entry); in general a single-child tree produces a
config entry exactly when the child's exact type is in the supported set,
and a warning exactly when its type is in the needs-zeroing set but not the
supported set and `prune_bias` is set (the warned child gets no entry);
discovery is a total function, so it never raises. -/
theorem c3_amended :
    (∀ (env : Nat → MKind) (root : MTree) (pb : Bool),
      (makeConfigDefault env root pb).2 = []) ∧
    (∀ (env : Nat → MKind) (rid cid : Nat) (nm : Str) (pb : Bool)
      (sup nz : List MKind),
      makeConfigFromModel env (.node rid [(nm, .node cid [])]) sup nz pb =
        ((if env cid ∈ sup then [('.' :: nm) ++ '.' :: weightS] else []),
         (if env cid ∈ nz ∧ env cid ∉ sup ∧ pb = true then [env cid] else []))) := by
  constructor
  · intro env root pb
    exact discoverGo_warns env root SUPPORTED_MODULES NEEDS_ZEROS pb (by decide)
      [root] [] []
  · intro env rid cid nm pb sup nz
    by_cases hs : env cid ∈ sup
    · simp [makeConfigFromModel, discoverGo, processChildren, MTree.children,
        MTree.id, moduleToFqnT, moduleToFqnL, hs]
    · by_cases hw : env cid ∈ nz ∧ pb = true
      · simp [makeConfigFromModel, discoverGo, processChildren, MTree.children,
          MTree.id, moduleToFqnT, moduleToFqnL, hs, hw, hw.1, hw.2]
      · have hcond : ¬(env cid ∈ nz ∧ pb = true) := hw
        simp [makeConfigFromModel, discoverGo, processChildren, MTree.children,
          MTree.id, moduleToFqnT, moduleToFqnL, hs, hcond]

/-- Witness for C5 at a concrete prepared module with pruned set `{1}`. -/
theorem c5_witness :
    (squashGroup hSq [0]).2 = none ∧
    ((squashGroup hSq [0]).1.mods 0).param = none ∧
    ((squashGroup hSq [0]).1.mods 0).mask = none ∧
    ((squashGroup hSq [0]).1.mods 0).weight =
      applyVariant PVariant.pruning (hSq.sets 0) (hSq.mods 0).weight ∧
    (squashGroup (squashGroup hSq [0]).1 [0]).2 = some .notParametrized :=
  c5_squash_twice_fails hSq 0 ⟨.pruning, 0⟩ 3 (by decide) (by decide)

end Pruner
